import Mathlib

/-!
# Verification of the MissionControl subagent orchestrator

This file gives a shallow embedding, in Lean 4, of the agent orchestrator
implemented in `docs/archive/agents/v3_subagent.py`, together with theorems
settling the specification claims about it.

The embedding translates the Python source directly:

* machine state (the in-memory `todos` and `subagents` lists, plus the
  filesystem touched by the `write`/`edit` tools) is threaded explicitly
  through an `AgentState` record;
* the external reasoning service and the external shell are modelled as
  oracles packaged in an `Env` record (`svc` maps a request — system prompt,
  tool schemas, message history — to a response, `cmd` maps a shell command
  to its observable behaviour);
* Python string operations used by the edit tool (`in`, `str.count`,
  `str.replace`) are re-implemented over `List Char` with Python's exact
  semantics (non-overlapping left-to-right matching, empty-pattern rules);
* the unbounded main loop and the 20-turn subagent loop are modelled as
  fuel-indexed recursions; the subagent loop's fuel is the source's
  `max_turns = 20`, while the main loop's fuel is only a device to express
  a possibly non-terminating `while True`.
-/

/-- A record of the in-memory `todos` list: `{"task": ..., "status": ...}`. -/
structure TodoRec where
  task : String
  status : String
deriving DecidableEq

/-- A record of the in-memory `subagents` list:
`{"task": ..., "status": ..., "turns": ...}`. -/
structure SubagentRec where
  task : String
  status : String
  turns : Nat
deriving DecidableEq

/-- The filesystem touched by the `read`/`write`/`edit` tools: an association
list from path to file content, plus the set of directories created so far.
Lookup takes the first (most recent) binding for a path. -/
structure Fs where
  files : List (String × String)
  dirs : List String
deriving DecidableEq

/-- All mutable state of the program: the filesystem and the two global lists
`todos` and `subagents` of `v3_subagent.py`. -/
structure AgentState where
  fs : Fs
  todos : List TodoRec
  subagents : List SubagentRec
deriving DecidableEq

/-- The named inputs a tool invocation may carry (the union of the fields of
the JSON input dicts of all tools; each handler reads only the fields its
schema declares). -/
structure ToolInput where
  command : String := ""
  path : String := ""
  content : String := ""
  old_string : String := ""
  new_string : String := ""
  task : String := ""
  index : Int := 0
  status : String := ""
  description : String := ""
deriving DecidableEq

/-- One content block of a reasoning-service response: free text, or a tool
invocation carrying a correlation id, a tool name and named inputs. -/
inductive Block where
  | text (s : String)
  | tool_use (id : String) (name : String) (input : ToolInput)
deriving DecidableEq

/-- A tool-result block: the correlation id of the invocation it answers and
the handler's textual result (lines 256-260 / 389-393 of the source). -/
structure ToolResult where
  tool_use_id : String
  content : String
deriving DecidableEq

/-- The content of one conversation message: the initial plain-text user seed,
an assistant message holding the verbatim response blocks, or a user message
holding tool results. -/
inductive MContent where
  | text (s : String)
  | blocks (bs : List Block)
  | results (rs : List ToolResult)
deriving DecidableEq

/-- One message of a conversation (`{"role": ..., "content": ...}`). -/
structure Message where
  role : String
  content : MContent
deriving DecidableEq

/-- A tool definition as it appears in `main_tools`: identifier, description,
and the names of the required inputs of its schema (the structural schema is
elided to its required-field list, which is all the claims need). -/
structure ToolDef where
  name : String
  description : String
  required : List String := []
deriving DecidableEq

/-- A reasoning-service response: stop reason plus ordered content blocks. -/
structure Response where
  stop_reason : String
  content : List Block
deriving DecidableEq

/-- One request to the reasoning service (`client.messages.create`): the
system instruction, the tool schemas offered, and the conversation so far. -/
structure SvcRequest where
  system : String
  tools : List ToolDef
  messages : List Message
deriving DecidableEq

/-- The observable behaviour of one shell command: how long it runs, what it
writes to the two streams, and whether it raises some other exception.
Modelled from the spec: the concrete shell is an external collaborator. -/
structure CommandBehavior where
  duration : Nat
  stdout : String := ""
  stderr : String := ""
  failure : Option String := none
deriving DecidableEq

/-- Outcome of `subprocess.run` as observed by the `bash` handler's
`try`/`except` blocks (lines 152-166). -/
inductive BashOutcome where
  | completed (stdout stderr : String)
  | timedOut
  | failed (msg : String)
deriving DecidableEq

/-- The two external oracles: the reasoning service and the shell. -/
structure Env where
  svc : SvcRequest → Response
  cmd : String → CommandBehavior

/-! ## Python string semantics

`str.__contains__`, `str.count` and `str.replace` over `List Char`, with
Python's exact behaviour: matching is non-overlapping and left-to-right, the
empty pattern occurs `len(s) + 1` times, and `replace` with an empty pattern
inserts the replacement at every gap. -/

/-- Python `sub in s` on character lists. -/
def pyContainsL (sub : List Char) : List Char → Bool
  | [] => sub.isEmpty
  | c :: cs => sub.isPrefixOf (c :: cs) || pyContainsL sub cs

/-- Fuel-indexed helper for `pyCountL`; the fuel (at least the length of the
scanned list) only makes the recursion structural, it never runs out. -/
def pyCountF (sub : List Char) : Nat → List Char → Nat
  | _, [] => if sub.isEmpty then 1 else 0
  | 0, _ :: _ => 0
  | fuel + 1, c :: cs =>
    if !sub.isEmpty && sub.isPrefixOf (c :: cs) then
      pyCountF sub fuel (cs.drop (sub.length - 1)) + 1
    else if sub.isEmpty then
      pyCountF sub fuel cs + 1
    else
      pyCountF sub fuel cs

/-- Python `s.count(sub)` on character lists: non-overlapping occurrences,
scanned left to right. -/
def pyCountL (sub s : List Char) : Nat := pyCountF sub s.length s

/-- Fuel-indexed helper for `pyReplaceL`; same fuel discipline as
`pyCountF`. -/
def pyReplaceF (sub new : List Char) : Nat → List Char → List Char
  | _, [] => if sub.isEmpty then new else []
  | 0, s => s
  | fuel + 1, c :: cs =>
    if !sub.isEmpty && sub.isPrefixOf (c :: cs) then
      new ++ pyReplaceF sub new fuel (cs.drop (sub.length - 1))
    else if sub.isEmpty then
      new ++ c :: pyReplaceF sub new fuel cs
    else
      c :: pyReplaceF sub new fuel cs

/-- Python `s.replace(sub, new)` on character lists: replaces every
non-overlapping occurrence, left to right. -/
def pyReplaceL (sub new s : List Char) : List Char := pyReplaceF sub new s.length s

theorem pyCountF_fuel (sub : List Char) :
    ∀ f1 f2 s, s.length ≤ f1 → s.length ≤ f2 →
      pyCountF sub f1 s = pyCountF sub f2 s := by
  intro f1
  induction f1 with
  | zero =>
    intro f2 s h1 _
    match s with
    | [] => cases f2 <;> rfl
    | c :: cs => simp at h1
  | succ g ih =>
    intro f2 s h1 h2
    match s with
    | [] => cases f2 <;> rfl
    | c :: cs =>
      match f2 with
      | 0 => simp at h2
      | g2 + 1 =>
        simp only [pyCountF]
        have hd : (cs.drop (sub.length - 1)).length ≤ cs.length := by
          simp [List.length_drop]
        have hc : cs.length ≤ g := Nat.lt_succ_iff.mp h1
        have hc2 : cs.length ≤ g2 := Nat.lt_succ_iff.mp h2
        split
        · rw [ih g2 _ (le_trans hd hc) (le_trans hd hc2)]
        · split
          · rw [ih g2 _ hc hc2]
          · rw [ih g2 _ hc hc2]

theorem pyReplaceF_fuel (sub new : List Char) :
    ∀ f1 f2 s, s.length ≤ f1 → s.length ≤ f2 →
      pyReplaceF sub new f1 s = pyReplaceF sub new f2 s := by
  intro f1
  induction f1 with
  | zero =>
    intro f2 s h1 _
    match s with
    | [] => cases f2 <;> rfl
    | c :: cs => simp at h1
  | succ g ih =>
    intro f2 s h1 h2
    match s with
    | [] => cases f2 <;> rfl
    | c :: cs =>
      match f2 with
      | 0 => simp at h2
      | g2 + 1 =>
        simp only [pyReplaceF]
        have hd : (cs.drop (sub.length - 1)).length ≤ cs.length := by
          simp [List.length_drop]
        have hc : cs.length ≤ g := Nat.lt_succ_iff.mp h1
        have hc2 : cs.length ≤ g2 := Nat.lt_succ_iff.mp h2
        split
        · rw [ih g2 _ (le_trans hd hc) (le_trans hd hc2)]
        · split
          · rw [ih g2 _ hc hc2]
          · rw [ih g2 _ hc hc2]

theorem pyCountL_nil (sub : List Char) :
    pyCountL sub [] = if sub.isEmpty then 1 else 0 := rfl

theorem pyCountL_cons (sub : List Char) (c : Char) (cs : List Char) :
    pyCountL sub (c :: cs) =
      if !sub.isEmpty && sub.isPrefixOf (c :: cs) then
        pyCountL sub (cs.drop (sub.length - 1)) + 1
      else if sub.isEmpty then
        pyCountL sub cs + 1
      else
        pyCountL sub cs := by
  show pyCountF sub (cs.length + 1) (c :: cs) = _
  simp only [pyCountF]
  have hd : (cs.drop (sub.length - 1)).length ≤ cs.length := by
    simp [List.length_drop]
  split
  · rw [pyCountF_fuel sub cs.length (cs.drop (sub.length - 1)).length _ hd le_rfl]; rfl
  · rfl

theorem pyReplaceL_nil (sub new : List Char) :
    pyReplaceL sub new [] = if sub.isEmpty then new else [] := rfl

theorem pyReplaceL_cons (sub new : List Char) (c : Char) (cs : List Char) :
    pyReplaceL sub new (c :: cs) =
      if !sub.isEmpty && sub.isPrefixOf (c :: cs) then
        new ++ pyReplaceL sub new (cs.drop (sub.length - 1))
      else if sub.isEmpty then
        new ++ c :: pyReplaceL sub new cs
      else
        c :: pyReplaceL sub new cs := by
  show pyReplaceF sub new (cs.length + 1) (c :: cs) = _
  simp only [pyReplaceF]
  have hd : (cs.drop (sub.length - 1)).length ≤ cs.length := by
    simp [List.length_drop]
  split
  · rw [pyReplaceF_fuel sub new cs.length (cs.drop (sub.length - 1)).length _ hd le_rfl]; rfl
  · rfl

/-- Python `sub in s` on strings. -/
def pyContains (sub s : String) : Bool := pyContainsL sub.data s.data

/-- Python `s.count(sub)` on strings. -/
def pyCount (sub s : String) : Nat := pyCountL sub.data s.data

/-- Python `s.replace(sub, new)` on strings. -/
def pyReplace (sub new s : String) : String := ⟨pyReplaceL sub.data new.data s.data⟩

example : pyCount "l" "hello" = 2 := by decide
example : pyCount "ell" "hello" = 1 := by decide
example : pyCount "aa" "aaa" = 1 := by decide
example : pyCount "" "abc" = 4 := by decide
example : pyReplace "ell" "ipp" "hello" = "hippo" := by decide
example : pyContains "" "" = true := by decide
example : pyContains "x" "hello" = false := by decide

/-! ## Filesystem model and path helpers -/

/-- Look up a file's content: first binding wins. -/
def fileAt (fs : Fs) (p : String) : Option String :=
  (fs.files.find? (fun kv => kv.1 == p)).map (·.2)

/-- Overwrite (or create) the file at `p`. -/
def writeFile (fs : Fs) (p content : String) : Fs :=
  { fs with files := (p, content) :: fs.files }

/-- Modelled from the spec: `os.path.dirname` (posix) — everything before the
last slash, with trailing slashes stripped unless the head is all slashes. -/
def dirname (p : String) : String :=
  let rev := p.data.reverse
  let revHead := rev.dropWhile (fun c => c ≠ '/')
  if revHead.isEmpty then ""
  else if revHead.all (fun c => c = '/') then ⟨revHead.reverse⟩
  else ⟨(revHead.dropWhile (fun c => c = '/')).reverse⟩

example : dirname "a/b/c" = "a/b" := by decide
example : dirname "c" = "" := by decide
example : dirname "/c" = "/" := by decide
example : dirname "a//b" = "a" := by decide

/-- The directories `os.makedirs` would create for `d`: `d` itself and every
ancestor obtained by iterating `dirname` (stopping at `""`, `"."`, `"/"`). -/
def ancestorsAux : Nat → String → List String
  | 0, _ => []
  | n + 1, d =>
    if d = "" ∨ d = "." ∨ d = "/" then []
    else ancestorsAux n (dirname d) ++ [d]

def ancestors (d : String) : List String := ancestorsAux (d.length + 1) d

example : ancestors "a/b" = ["a", "a/b"] := by decide
example : ancestors "." = [] := by decide

/-- Modelled from the spec: `os.makedirs(d, exist_ok=True)` — record `d` and
all its missing ancestors as existing directories. -/
def makedirs (d : String) (fs : Fs) : Fs :=
  { fs with dirs := fs.dirs ++ (ancestors d).filter (fun x => ¬ fs.dirs.contains x) }

/-- Modelled from the spec: the number of bytes a text-mode `f.write(content)`
puts on disk — the UTF-8 byte length of the content (Python 3 writes text
files UTF-8-encoded in the reference environment). -/
def bytesWritten (s : String) : Nat :=
  s.data.foldr (fun c n => c.utf8Size + n) 0

example : bytesWritten "hi" = 2 := by decide

/-! ## Tool definitions and system prompts (lines 17-146 of the source) -/

def SYSTEM_PROMPT : String :=
  "You are a helpful coding assistant that can delegate tasks to subagents.\n\nIMPORTANT WORKFLOW:\n1. For complex tasks, break them down using todo_add\n2. For isolated subtasks, spawn a subagent using the \x27task\x27 tool\n3. Subagents have their own context - give them clear, complete instructions\n4. Review subagent results and integrate their work\n\nWhen to use subagents:\n- Tasks that can be done independently\n- When you want isolated context (won\x27t pollute your main conversation)\n- Parallel-style work (research, then implement)\n\nTools:\n- bash: Run shell commands\n- read: Read file contents\n- write: Create/overwrite files\n- edit: Find and replace in files\n- todo_add/todo_update/todo_list: Track your tasks\n- task: Spawn a subagent for isolated work\n\nBe strategic about delegation. You\x27re the orchestrator."

def SUBAGENT_SYSTEM : String :=
  "You are a focused coding assistant working on a specific task.\nYou have access to bash, read, write, and edit tools.\nComplete your assigned task efficiently and report back.\nDo not ask questions - make reasonable decisions and proceed."

/-- Tools for the main agent (includes `task`), line 46. -/
def main_tools : List ToolDef :=
  [ { name := "bash",
      description := "Run a bash command and return the output",
      required := ["command"] },
    { name := "read",
      description := "Read the contents of a file",
      required := ["path"] },
    { name := "write",
      description := "Write content to a file (creates or overwrites)",
      required := ["path", "content"] },
    { name := "edit",
      description := "Edit a file by replacing old_string with new_string. The old_string must match exactly.",
      required := ["path", "old_string", "new_string"] },
    { name := "todo_add",
      description := "Add a new task to the todo list",
      required := ["task"] },
    { name := "todo_update",
      description := "Update the status of a task",
      required := ["index", "status"] },
    { name := "todo_list",
      description := "List all tasks with their status",
      required := [] },
    { name := "task",
      description := "Spawn a subagent to handle an isolated task. The subagent has its own context and tools (bash, read, write, edit). Use for independent subtasks.",
      required := ["description"] } ]

/-- Tools for the subagent (no task spawning — prevents infinite recursion),
line 146: `[t for t in main_tools if t["name"] not in [...]]`. -/
def subagent_tools : List ToolDef :=
  main_tools.filter
    (fun t => !(["task", "todo_add", "todo_update", "todo_list"].contains t.name))

/-! ## Basic tool handlers (`execute_basic`, lines 149-214) -/

/-- The `timeout=120` argument of `subprocess.run` (line 159). -/
def bashTimeout : Nat := 120

/-- Modelled from the spec: `subprocess.run(command, shell=True,
capture_output=True, text=True, timeout=120)` — raises `TimeoutExpired` when
the command outlives the timeout, raises the recorded failure otherwise, and
completes with the captured streams when nothing goes wrong. -/
def subprocess_run (beh : CommandBehavior) : BashOutcome :=
  if bashTimeout < beh.duration then .timedOut
  else
    match beh.failure with
    | some e => .failed e
    | none => .completed beh.stdout beh.stderr

/-- The `bash` branch of `execute_basic` (lines 152-166). -/
def bashTool (env : Env) (st : AgentState) (inp : ToolInput) : AgentState × String :=
  (st,
    match subprocess_run (env.cmd inp.command) with
    | .completed out err =>
      let output := out ++ err
      if output = "" then "(no output)" else output
    | .timedOut => "Error: Command timed out after 120 seconds"
    | .failed e => "Error: " ++ e)

/-- The `read` branch of `execute_basic` (lines 168-177). -/
def readTool (st : AgentState) (inp : ToolInput) : AgentState × String :=
  (st,
    match fileAt st.fs inp.path with
    | none => "Error: File not found: " ++ inp.path
    | some content => if content = "" then "(empty file)" else content)

/-- The `write` branch of `execute_basic` (lines 179-188). -/
def writeTool (st : AgentState) (inp : ToolInput) : AgentState × String :=
  let d := dirname inp.path
  let fs1 := makedirs (if d = "" then "." else d) st.fs
  ({ st with fs := writeFile fs1 inp.path inp.content },
    "Successfully wrote " ++ toString inp.content.length ++ " bytes to " ++ inp.path)

/-- The `edit` branch of `execute_basic` (lines 190-212). -/
def editTool (st : AgentState) (inp : ToolInput) : AgentState × String :=
  match fileAt st.fs inp.path with
  | none => (st, "Error: File not found: " ++ inp.path)
  | some content =>
    if ¬ pyContains inp.old_string content then
      (st, "Error: old_string not found in " ++ inp.path)
    else
      let count := pyCount inp.old_string content
      if 1 < count then
        (st, "Error: old_string found " ++ toString count ++ " times. Make it more specific.")
      else
        ({ st with fs := writeFile st.fs inp.path (pyReplace inp.old_string inp.new_string content) },
          "Successfully edited " ++ inp.path)

/-- `execute_basic` (lines 149-214): handles the four basic tools, returns
`none` (Python `None`) when the tool is not one of them. -/
def execute_basic (env : Env) (st : AgentState) (tool_name : String)
    (tool_input : ToolInput) : Option (AgentState × String) :=
  if tool_name = "bash" then some (bashTool env st tool_input)
  else if tool_name = "read" then some (readTool st tool_input)
  else if tool_name = "write" then some (writeTool st tool_input)
  else if tool_name = "edit" then some (editTool st tool_input)
  else none

/-! ## Todo rendering and list-update helper -/

/-- Point update of a list at an index (`xs[i] = f(xs[i])`); identity when the
index is out of range. -/
def updateAt {α : Type} : List α → Nat → (α → α) → List α
  | [], _, _ => []
  | x :: xs, 0, f => f x :: xs
  | x :: xs, n + 1, f => x :: updateAt xs n f

/-- `status_icons.get(status, "[ ]")` of the `todo_list` branch (line 303). -/
def statusIcon (s : String) : String :=
  if s = "pending" then "[ ]"
  else if s = "in_progress" then "[~]"
  else if s = "done" then "[x]"
  else "[ ]"

/-- One rendered line of `todo_list`: `f"{i}. {icon} {todo['task']}"`. -/
def renderLine (i : Nat) (t : TodoRec) : String :=
  toString i ++ ". " ++ statusIcon t.status ++ " " ++ t.task

/-- The `todo_list` branch of `execute` (lines 299-307). -/
def renderTodos (ts : List TodoRec) : String :=
  if ts.isEmpty then "No tasks yet."
  else String.intercalate "\n" (ts.enum.map (fun p => renderLine p.1 p.2))

/-! ## The engine loops (lines 217-273 and 352-400)

Both loops scan the response's blocks in order, executing every `tool_use`
block as it is encountered and collecting one `tool_result` per invocation
(lines 242-260 / 374-393). `runToolUses` is that scan, parameterised by the
executor (`execute_basic`-with-unknown-fallback for the subagent, `execute`
for the main agent). -/

/-- Execute every `tool_use` block of a response in order, threading state,
and collect their results in the same order. -/
def runToolUses (exec : AgentState → String → ToolInput → AgentState × String) :
    AgentState → List Block → AgentState × List ToolResult
  | st, [] => (st, [])
  | st, .text _ :: rest => runToolUses exec st rest
  | st, .tool_use i n inp :: rest =>
    let r := exec st n inp
    let k := runToolUses exec r.1 rest
    (k.1, ⟨i, r.2⟩ :: k.2)

/-- `"".join(b.text for b in response.content if hasattr(b, "text"))`. -/
def joinTexts (bs : List Block) : String :=
  String.join (bs.filterMap (fun b => match b with | .text s => some s | _ => none))

/-- The executor a subagent runs its tool calls through (lines 246-248):
`execute_basic`, falling back to `f"Unknown tool: {block.name}"`. -/
def subExec (env : Env) (st : AgentState) (n : String) (inp : ToolInput) :
    AgentState × String :=
  (execute_basic env st n inp).getD (st, "Unknown tool: " ++ n)

/-- `subagents[sid]["turns"] = v`. -/
def setTurns (st : AgentState) (sid v : Nat) : AgentState :=
  { st with subagents := updateAt st.subagents sid (fun r => { r with turns := v }) }

/-- `subagents[sid]["status"] = s`. -/
def markStatus (st : AgentState) (sid : Nat) (s : String) : AgentState :=
  { st with subagents := updateAt st.subagents sid (fun r => { r with status := s }) }

/-- `max_turns = 20  # Prevent runaway subagents` (line 225). -/
def max_turns : Nat := 20

/-- The timeout notice returned after the loop ends without a final response
(line 273): `f"Subagent reached max turns ({max_turns}). Partial work may be
completed."`. -/
def timeoutMsg : String :=
  "Subagent reached max turns (" ++ toString max_turns ++ "). Partial work may be completed."

/-- Everything observable about one engine run: the final program state, the
returned string, the final conversation, and the trace of reasoning-service
requests issued (in order). -/
structure RunOut where
  state : AgentState
  result : String
  messages : List Message
  requests : List SvcRequest
deriving DecidableEq

/-- The `for turn in range(max_turns)` loop of `run_subagent`
(lines 227-273), as a recursion on the remaining turn budget. `turn` is the
0-based index of the current turn; running out of fuel is exactly reaching
the end of the `range` without returning, which marks the record `timeout`
and yields the timeout notice. -/
def subagentLoop (env : Env) (sid : Nat) :
    Nat → Nat → AgentState → List Message → RunOut
  | 0, _, st, msgs =>
    { state := markStatus st sid "timeout"
      result := timeoutMsg
      messages := msgs
      requests := [] }
  | fuel + 1, turn, st, msgs =>
    let st1 := setTurns st sid (turn + 1)
    let req : SvcRequest := ⟨SUBAGENT_SYSTEM, subagent_tools, msgs⟩
    let resp := env.svc req
    let pr := runToolUses (subExec env) st1 resp.content
    let msgs1 := msgs ++ [⟨"assistant", .blocks resp.content⟩]
    if resp.stop_reason ≠ "tool_use" then
      { state := markStatus pr.1 sid "done"
        result := joinTexts resp.content
        messages := msgs1
        requests := [req] }
    else
      let rest := subagentLoop env sid fuel (turn + 1) pr.1
        (msgs1 ++ [⟨"user", .results pr.2⟩])
      { rest with requests := req :: rest.requests }

/-- `run_subagent` (lines 217-273): append a fresh `running` record, seed the
conversation with the task description alone, and run the turn-capped loop. -/
def run_subagent (env : Env) (st : AgentState) (task_description : String) : RunOut :=
  let sid := st.subagents.length
  let st0 := { st with subagents := st.subagents ++ [⟨task_description, "running", 0⟩] }
  subagentLoop env sid max_turns 0 st0 [⟨"user", .text task_description⟩]

/-- `execute` (lines 276-314): basic tools first, then the todo tools, the
`task` tool (spawning a subagent), and the unknown-tool fallback. -/
def execute (env : Env) (st : AgentState) (tool_name : String)
    (tool_input : ToolInput) : AgentState × String :=
  match execute_basic env st tool_name tool_input with
  | some r => r
  | none =>
    if tool_name = "todo_add" then
      ({ st with todos := st.todos ++ [⟨tool_input.task, "pending"⟩] },
        "Added task " ++ toString st.todos.length ++ ": " ++ tool_input.task)
    else if tool_name = "todo_update" then
      let index := tool_input.index
      let status := tool_input.status
      if index < 0 ∨ (st.todos.length : Int) ≤ index then
        (st, "Error: Invalid index " ++ toString index ++ ". Valid range: 0-" ++
          toString ((st.todos.length : Int) - 1))
      else
        ({ st with todos := updateAt st.todos index.toNat (fun t => { t with status := status }) },
          "Updated task " ++ toString index ++ " to " ++ status)
    else if tool_name = "todo_list" then
      (st, renderTodos st.todos)
    else if tool_name = "task" then
      let out := run_subagent env st tool_input.description
      (out.state, out.result)
    else
      (st, "Unknown tool: " ++ tool_name)

/-- The `while True` loop of `agent` (lines 357-400), fuel-indexed: `none`
models the loop still running after `fuel` turns (the primary loop has no
turn ceiling of its own). -/
def agentLoop (env : Env) : Nat → AgentState → List Message → Option RunOut
  | 0, _, _ => none
  | fuel + 1, st, msgs =>
    let req : SvcRequest := ⟨SYSTEM_PROMPT, main_tools, msgs⟩
    let resp := env.svc req
    let pr := runToolUses (execute env) st resp.content
    let msgs1 := msgs ++ [⟨"assistant", .blocks resp.content⟩]
    if resp.stop_reason ≠ "tool_use" then
      some { state := pr.1
             result := joinTexts resp.content
             messages := msgs1
             requests := [req] }
    else
      (agentLoop env fuel pr.1 (msgs1 ++ [⟨"user", .results pr.2⟩])).map
        (fun out => { out with requests := req :: out.requests })

/-- The empty starting state: no files, no todos, no subagents. -/
def initState : AgentState := ⟨⟨[], []⟩, [], []⟩

/-- `agent(task)` (lines 352-400): the main loop on a conversation seeded with
the task. -/
def agent (env : Env) (fuel : Nat) (task : String) : Option RunOut :=
  agentLoop env fuel initState [⟨"user", .text task⟩]

/-! ## Lemmas about the Python string primitives -/

theorem isPrefixOf_exists {l : List Char} :
    ∀ {s : List Char}, l.isPrefixOf s = true → ∃ t, s = l ++ t := by
  induction l with
  | nil => intro s _; exact ⟨s, rfl⟩
  | cons a as ih =>
    intro s h
    match s with
    | [] => simp [List.isPrefixOf] at h
    | b :: bs =>
      simp only [List.isPrefixOf, Bool.and_eq_true, beq_iff_eq] at h
      obtain ⟨rfl, h2⟩ := h
      obtain ⟨t, rfl⟩ := ih h2
      exact ⟨t, rfl⟩

theorem pyCountL_nil_pattern_pos (s : List Char) : 0 < pyCountL [] s := by
  cases s with
  | nil => simp [pyCountL_nil]
  | cons c cs => rw [pyCountL_cons]; simp

theorem pyContainsL_iff_count_pos (sub : List Char) :
    ∀ s, pyContainsL sub s = true ↔ 0 < pyCountL sub s := by
  intro s
  by_cases hsub : sub = []
  · subst hsub
    constructor
    · intro _; exact pyCountL_nil_pattern_pos s
    · intro _
      cases s with
      | nil => rfl
      | cons c cs => simp [pyContainsL, List.isPrefixOf]
  · induction s with
    | nil =>
      rw [pyCountL_nil]
      simp [pyContainsL, List.isEmpty_iff, hsub]
    | cons c cs ih =>
      rw [pyCountL_cons]
      simp only [pyContainsL, Bool.or_eq_true]
      by_cases hpre : sub.isPrefixOf (c :: cs) = true
      · have : (!sub.isEmpty && sub.isPrefixOf (c :: cs)) = true := by
          simp [hpre, List.isEmpty_iff, hsub]
        rw [if_pos this]
        simp [hpre]
      · have : ¬ (!sub.isEmpty && sub.isPrefixOf (c :: cs)) = true := by
          simp [hpre]
        rw [if_neg this, if_neg (by simp [List.isEmpty_iff, hsub])]
        simp [hpre, ih]

theorem pyReplaceL_of_count_zero (sub new : List Char) (hsub : ¬ sub = []) :
    ∀ s, pyCountL sub s = 0 → pyReplaceL sub new s = s := by
  intro s
  induction s with
  | nil => intro _; rw [pyReplaceL_nil, if_neg (by simp [List.isEmpty_iff, hsub])]
  | cons c cs ih =>
    intro h
    rw [pyCountL_cons] at h
    rw [pyReplaceL_cons]
    by_cases hpre : (!sub.isEmpty && sub.isPrefixOf (c :: cs)) = true
    · rw [if_pos hpre] at h; omega
    · rw [if_neg hpre] at h
      rw [if_neg (by simp [List.isEmpty_iff, hsub])] at h
      rw [if_neg hpre, if_neg (by simp [List.isEmpty_iff, hsub])]
      rw [ih h]

theorem pyCountL_one_split (sub new : List Char) :
    ∀ s, pyCountL sub s = 1 →
      ∃ b a, s = b ++ sub ++ a ∧ pyReplaceL sub new s = b ++ new ++ a := by
  intro s
  induction s with
  | nil =>
    intro h
    rw [pyCountL_nil] at h
    by_cases hsub : sub.isEmpty = true
    · have hs : sub = [] := List.isEmpty_iff.mp hsub
      refine ⟨[], [], by simp [hs], ?_⟩
      rw [pyReplaceL_nil, if_pos hsub]
      simp
    · rw [if_neg hsub] at h; omega
  | cons c cs ih =>
    intro h
    rw [pyCountL_cons] at h
    by_cases hpre : (!sub.isEmpty && sub.isPrefixOf (c :: cs)) = true
    · rw [if_pos hpre] at h
      have hcount : pyCountL sub (cs.drop (sub.length - 1)) = 0 := by omega
      have hsub : ¬ sub = [] := by
        rcases Bool.and_eq_true .. |>.mp hpre with ⟨h1, _⟩
        simp [List.isEmpty_iff] at h1
        exact h1
      have hpre2 : sub.isPrefixOf (c :: cs) = true :=
        (Bool.and_eq_true .. |>.mp hpre).2
      obtain ⟨t, ht⟩ := isPrefixOf_exists hpre2
      have hdrop : cs.drop (sub.length - 1) = t := by
        match sub, hsub with
        | d :: ds, _ =>
          have : c :: cs = d :: (ds ++ t) := by simpa using ht
          have hcs : cs = ds ++ t := by
            injection this with _ h2
          simp [hcs, List.drop_left]
      refine ⟨[], t, by simpa using ht, ?_⟩
      rw [pyReplaceL_cons, if_pos hpre, hdrop,
        pyReplaceL_of_count_zero sub new hsub t (hdrop ▸ hcount)]
      simp
    · rw [if_neg hpre] at h
      by_cases hsub : sub.isEmpty = true
      · rw [if_pos hsub] at h
        have := pyCountL_nil_pattern_pos cs
        rw [List.isEmpty_iff.mp hsub] at h
        omega
      · rw [if_neg hsub] at h
        obtain ⟨b, a, hba, hrep⟩ := ih h
        refine ⟨c :: b, a, by simp [hba], ?_⟩
        rw [pyReplaceL_cons, if_neg hpre, if_neg hsub, hrep]
        simp

theorem pyContains_iff_count_pos (sub s : String) :
    pyContains sub s = true ↔ 0 < pyCount sub s :=
  pyContainsL_iff_count_pos sub.data s.data

theorem pyCount_one_split (sub new s : String) (h : pyCount sub s = 1) :
    ∃ b a : String, s = b ++ sub ++ a ∧ pyReplace sub new s = b ++ new ++ a := by
  obtain ⟨b, a, hba, hrep⟩ := pyCountL_one_split sub.data new.data s.data h
  refine ⟨⟨b⟩, ⟨a⟩, ?_, ?_⟩
  · cases s with
    | mk d =>
      cases sub with
      | mk sd =>
        show String.mk d = ⟨(b ++ sd) ++ a⟩
        simpa [List.append_assoc] using congrArg String.mk hba
  · cases new with
    | mk nd =>
      show String.mk (pyReplaceL sub.data nd s.data) = ⟨(b ++ nd) ++ a⟩
      simpa [List.append_assoc] using congrArg String.mk hrep

/-! ## Shared concrete instances used by witnesses -/

/-- A service that immediately ends the conversation with the text `hi`, and
a shell where every command finishes instantly with no output. -/
def envFinal : Env := ⟨fun _ => ⟨"end_turn", [Block.text "hi"]⟩, fun _ => ⟨0, "", "", none⟩⟩

/-- A service that requests tool use forever (with no actual invocation
blocks). -/
def envLoop : Env := ⟨fun _ => ⟨"tool_use", []⟩, fun _ => ⟨0, "", "", none⟩⟩

/-- A shell whose commands outlive the 120-second budget. -/
def envSlow : Env := ⟨fun _ => ⟨"end_turn", [Block.text "hi"]⟩, fun _ => ⟨121, "", "", none⟩⟩

/-- A state holding one file `f.txt` with content `hello`. -/
def stFile : AgentState := ⟨⟨[("f.txt", "hello")], []⟩, [], []⟩

/-- A state holding one pending todo. -/
def stTodo : AgentState := ⟨⟨[], []⟩, [⟨"write tests", "pending"⟩], []⟩

/-! ## C5 — the file-edit handler requires a unique occurrence -/

/-- C5: for every file content and target substring, the edit handler succeeds
exactly when the target occurs exactly once (in which case it performs the
literal single substitution `content = b ++ old ++ a ↦ b ++ new ++ a`); zero
occurrences give the not-found error and several occurrences give the
ambiguity error reporting the count, the file content staying untouched in
both error cases. -/
theorem edit_unique_occurrence (env : Env) (st : AgentState)
    (p old new content : String) (hfile : fileAt st.fs p = some content) :
    (pyCount old content = 0 →
      execute_basic env st "edit" { path := p, old_string := old, new_string := new } =
        some (st, "Error: old_string not found in " ++ p)) ∧
    (1 < pyCount old content →
      execute_basic env st "edit" { path := p, old_string := old, new_string := new } =
        some (st, "Error: old_string found " ++ toString (pyCount old content) ++
          " times. Make it more specific.")) ∧
    (pyCount old content = 1 →
      execute_basic env st "edit" { path := p, old_string := old, new_string := new } =
        some ({ st with fs := writeFile st.fs p (pyReplace old new content) },
          "Successfully edited " ++ p) ∧
      ∃ b a : String, content = b ++ old ++ a ∧ pyReplace old new content = b ++ new ++ a) := by
  have hbasic : execute_basic env st "edit"
      { path := p, old_string := old, new_string := new } =
      some (editTool st { path := p, old_string := old, new_string := new }) := rfl
  rw [hbasic]
  simp only [editTool, hfile]
  refine ⟨?_, ?_, ?_⟩
  · intro h0
    have hc : ¬ pyContains old content = true := by
      rw [pyContains_iff_count_pos, h0]; omega
    simp [hc]
  · intro h1
    have hc : pyContains old content = true := by
      rw [pyContains_iff_count_pos]; omega
    simp [hc, h1]
  · intro h1
    have hc : pyContains old content = true := by
      rw [pyContains_iff_count_pos]; omega
    refine ⟨by simp [hc, h1], pyCount_one_split old new content h1⟩

/-- Witness for C5 at concrete inputs: a unique match is substituted, an
ambiguous match reports its count, a missing match reports not-found. -/
theorem edit_unique_occurrence_witness :
    execute_basic envFinal stFile "edit"
        { path := "f.txt", old_string := "ell", new_string := "ipp" } =
      some (⟨⟨[("f.txt", "hippo"), ("f.txt", "hello")], []⟩, [], []⟩,
        "Successfully edited f.txt") ∧
    execute_basic envFinal stFile "edit"
        { path := "f.txt", old_string := "l", new_string := "L" } =
      some (stFile, "Error: old_string found 2 times. Make it more specific.") ∧
    execute_basic envFinal stFile "edit"
        { path := "f.txt", old_string := "xyz", new_string := "q" } =
      some (stFile, "Error: old_string not found in f.txt") := by
  refine ⟨?_, ?_, ?_⟩
  · exact ((edit_unique_occurrence envFinal stFile "f.txt" "ell" "ipp" "hello" rfl).2.2
      (by decide)).1
  · exact (edit_unique_occurrence envFinal stFile "f.txt" "l" "L" "hello" rfl).2.1
      (by decide)
  · exact (edit_unique_occurrence envFinal stFile "f.txt" "xyz" "q" "hello" rfl).1
      (by decide)

/-! ## C7 — the command-execution handler's timeout contract -/

/-- C7: the `bash` handler enforces the fixed 120-unit budget — a command that
outlives it yields the literal timeout message (never partial output, never an
exception), a command that completes yields `stdout ++ stderr`, with the
literal `(no output)` substituted when both streams are empty. -/
theorem bash_timeout_contract (env : Env) (st : AgentState) (c : String) :
    (bashTimeout < (env.cmd c).duration →
      execute_basic env st "bash" { command := c } =
        some (st, "Error: Command timed out after 120 seconds")) ∧
    ((env.cmd c).duration ≤ bashTimeout → (env.cmd c).failure = none →
      execute_basic env st "bash" { command := c } =
        some (st,
          if (env.cmd c).stdout ++ (env.cmd c).stderr = "" then "(no output)"
          else (env.cmd c).stdout ++ (env.cmd c).stderr)) ∧
    ((env.cmd c).duration ≤ bashTimeout → (env.cmd c).failure = none →
      (env.cmd c).stdout = "" → (env.cmd c).stderr = "" →
      execute_basic env st "bash" { command := c } = some (st, "(no output)")) ∧
    bashTimeout = 120 := by
  have hbasic : execute_basic env st "bash" { command := c } =
      some (bashTool env st { command := c }) := rfl
  refine ⟨?_, ?_, ?_, rfl⟩
  · intro h
    rw [hbasic]
    simp only [bashTool, subprocess_run]
    rw [if_pos h]
  · intro h hf
    rw [hbasic]
    simp only [bashTool, subprocess_run]
    rw [if_neg (by omega), hf]
  · intro h hf h1 h2
    rw [hbasic]
    simp only [bashTool, subprocess_run]
    rw [if_neg (by omega), hf]
    simp [h1, h2]

/-- Witness for C7: a 121-unit command times out with the literal message; an
instant silent command yields `(no output)`. -/
theorem bash_timeout_contract_witness :
    execute_basic envSlow initState "bash" { command := "sleep 200" } =
      some (initState, "Error: Command timed out after 120 seconds") ∧
    execute_basic envFinal initState "bash" { command := "true" } =
      some (initState, "(no output)") := by
  refine ⟨?_, ?_⟩
  · exact (bash_timeout_contract envSlow initState "sleep 200").1 (by decide)
  · exact (bash_timeout_contract envFinal initState "true").2.2.1
      (by decide) rfl rfl rfl

/-! ## C8 — the file-write handler (corrected claim)

The handler reports `len(content)` — the number of characters — while the
bytes actually written are the UTF-8 encoding of the content; the two agree
exactly on single-byte (ASCII) content, and differ on any multi-byte
character, so the original claim fails. -/

theorem foldr_utf8Size_of_ascii :
    ∀ l : List Char, (∀ c ∈ l, c.utf8Size = 1) →
      l.foldr (fun c n => c.utf8Size + n) 0 = l.length := by
  intro l
  induction l with
  | nil => intro _; rfl
  | cons c cs ih =>
    intro h
    simp only [List.foldr_cons, List.length_cons]
    rw [h c (by simp), ih (fun x hx => h x (by simp [hx]))]
    omega

theorem fileAt_writeFile (fs : Fs) (p c : String) :
    fileAt (writeFile fs p c) p = some c := by
  simp [fileAt, writeFile, List.find?]

theorem mem_makedirs (d : String) (fs : Fs) :
    ∀ a ∈ ancestors d, a ∈ (makedirs d fs).dirs := by
  intro a ha
  simp only [makedirs]
  by_cases h : a ∈ fs.dirs
  · exact List.mem_append.mpr (Or.inl h)
  · refine List.mem_append.mpr (Or.inr (List.mem_filter.mpr ⟨ha, ?_⟩))
    simp [List.contains, h]

/-- C8 counterexample: writing the one-character content `é` reports
`1 bytes` while the UTF-8 write puts 2 bytes on disk, so the reported number
does not equal the bytes actually written. -/
theorem write_bytes_counterexample :
    execute_basic envFinal initState "write" { path := "f", content := "é" } =
      some (⟨⟨[("f", "é")], []⟩, [], []⟩, "Successfully wrote 1 bytes to f") ∧
    bytesWritten "é" = 2 ∧
    "Successfully wrote 1 bytes to f" ≠
      "Successfully wrote " ++ toString (bytesWritten "é") ++ " bytes to f" := by
  exact ⟨by decide, by decide, by decide⟩

/-- The filesystem after `writeTool`: parent directories created, file
stored. -/
def writtenFs (st : AgentState) (p content : String) : Fs :=
  writeFile (makedirs (if dirname p = "" then "." else dirname p) st.fs) p content

/-- The `dirname(path) or "."` argument passed to `os.makedirs`. -/
def parentDir (p : String) : String :=
  if dirname p = "" then "." else dirname p

/-- C8 (amended): a write creates the missing parent directories of the path,
stores the content, and reports the character count of the content, which
equals the bytes written whenever every character is single-byte (ASCII). -/
theorem write_reports_length (env : Env) (st : AgentState) (p content : String) :
    execute_basic env st "write" { path := p, content := content } =
      some ({ st with fs := writtenFs st p content },
        "Successfully wrote " ++ toString content.length ++ " bytes to " ++ p) ∧
    fileAt (writtenFs st p content) p = some content ∧
    (∀ d ∈ ancestors (parentDir p), d ∈ (writtenFs st p content).dirs) ∧
    ((∀ ch ∈ content.data, ch.utf8Size = 1) → bytesWritten content = content.length) := by
  refine ⟨rfl, fileAt_writeFile .. , ?_, ?_⟩
  · intro d hd
    exact mem_makedirs _ st.fs d hd
  · intro h
    exact foldr_utf8Size_of_ascii content.data h

/-- Witness for C8 (amended): writing `hi` under `x/y` creates directory `x`,
stores the file, and the ASCII content has byte count equal to its length. -/
theorem write_reports_length_witness :
    execute_basic envFinal initState "write" { path := "x/y", content := "hi" } =
      some (⟨⟨[("x/y", "hi")], ["x"]⟩, [], []⟩, "Successfully wrote 2 bytes to x/y") ∧
    "x" ∈ (writtenFs initState "x/y" "hi").dirs ∧
    bytesWritten "hi" = ("hi" : String).length := by
  refine ⟨?_, ?_, ?_⟩
  · exact (write_reports_length envFinal initState "x/y" "hi").1
  · exact (write_reports_length envFinal initState "x/y" "hi").2.2.1 "x" (by decide)
  · exact (write_reports_length envFinal initState "x/y" "hi").2.2.2 (by decide)

/-! ## C4 and C9 — the task-update operation -/

theorem updateAt_get?_self {α : Type} (f : α → α) :
    ∀ (l : List α) (i : Nat), (updateAt l i f).get? i = (l.get? i).map f := by
  intro l
  induction l with
  | nil => intro i; cases i <;> rfl
  | cons x xs ih =>
    intro i
    cases i with
    | zero => rfl
    | succ n => simpa [updateAt] using ih n

theorem updateAt_length {α : Type} (f : α → α) :
    ∀ (l : List α) (i : Nat), (updateAt l i f).length = l.length := by
  intro l
  induction l with
  | nil => intro i; cases i <;> rfl
  | cons x xs ih =>
    intro i
    cases i with
    | zero => rfl
    | succ n => simpa [updateAt] using ih n

/-- C4: `todo_update` fails with the out-of-range error (naming the valid
range) exactly when the index is negative or at least the current count; the
failure leaves the state untouched, and a success overwrites the addressed
record's status in place, which the `todo_list` operation renders from the
updated list. -/
theorem todo_update_range (env : Env) (st : AgentState) (i : Int) (s : String) :
    ((i < 0 ∨ (st.todos.length : Int) ≤ i) →
      execute env st "todo_update" { index := i, status := s } =
        (st, "Error: Invalid index " ++ toString i ++ ". Valid range: 0-" ++
          toString ((st.todos.length : Int) - 1))) ∧
    (0 ≤ i → i < (st.todos.length : Int) →
      execute env st "todo_update" { index := i, status := s } =
        ({ st with todos := updateAt st.todos i.toNat (fun t => { t with status := s }) },
          "Updated task " ++ toString i ++ " to " ++ s) ∧
      (∀ t, st.todos.get? i.toNat = some t →
        (updateAt st.todos i.toNat (fun t => { t with status := s })).get? i.toNat =
          some { t with status := s }) ∧
      ∀ st2 : AgentState, execute env st2 "todo_list" {} = (st2, renderTodos st2.todos)) := by
  have hexec : execute env st "todo_update" { index := i, status := s } =
      if i < 0 ∨ (st.todos.length : Int) ≤ i then
        (st, "Error: Invalid index " ++ toString i ++ ". Valid range: 0-" ++
          toString ((st.todos.length : Int) - 1))
      else
        ({ st with todos := updateAt st.todos i.toNat (fun t => { t with status := s }) },
          "Updated task " ++ toString i ++ " to " ++ s) := rfl
  constructor
  · intro h
    rw [hexec, if_pos h]
  · intro h0 h1
    refine ⟨by rw [hexec, if_neg (by omega)], ?_, ?_⟩
    · intro t ht
      rw [updateAt_get?_self, ht]
      rfl
    · intro st2
      rfl

/-- Witness for C4 on a one-element task list: updating index 0 succeeds and
is rendered by `todo_list`; updating index 5 reports the range `0-0` and
leaves the state unchanged. -/
theorem todo_update_range_witness :
    execute envFinal stTodo "todo_update" { index := 5, status := "done" } =
      (stTodo, "Error: Invalid index 5. Valid range: 0-0") ∧
    execute envFinal stTodo "todo_update" { index := 0, status := "in_progress" } =
      (⟨⟨[], []⟩, [⟨"write tests", "in_progress"⟩], []⟩,
        "Updated task 0 to in_progress") ∧
    execute envFinal ⟨⟨[], []⟩, [⟨"write tests", "in_progress"⟩], []⟩ "todo_list" {} =
      (⟨⟨[], []⟩, [⟨"write tests", "in_progress"⟩], []⟩, "0. [~] write tests") := by
  refine ⟨?_, ?_, ?_⟩
  · exact (todo_update_range envFinal stTodo 5 "done").1 (by decide)
  · exact ((todo_update_range envFinal stTodo 0 "in_progress").2
      (by decide) (by decide)).1
  · have h := ((todo_update_range envFinal stTodo 0 "in_progress").2
      (by decide) (by decide)).2.2 ⟨⟨[], []⟩, [⟨"write tests", "in_progress"⟩], []⟩
    rw [h]
    decide

/-- C9 (implicit): the update never validates the status value — any string,
inside or outside the declared enum, is stored verbatim for an in-range
index — and the renderer used by `todo_list` falls back to the pending
marker `[ ]` for a status outside the enum. -/
theorem todo_update_any_status (env : Env) (st : AgentState) (i : Int) (s : String)
    (h0 : 0 ≤ i) (h1 : i < (st.todos.length : Int)) :
    execute env st "todo_update" { index := i, status := s } =
      ({ st with todos := updateAt st.todos i.toNat (fun t => { t with status := s }) },
        "Updated task " ++ toString i ++ " to " ++ s) ∧
    (∀ t, st.todos.get? i.toNat = some t →
      (updateAt st.todos i.toNat (fun t => { t with status := s })).get? i.toNat =
        some { t with status := s }) ∧
    (s ≠ "pending" → s ≠ "in_progress" → s ≠ "done" →
      statusIcon s = "[ ]" ∧
      ∀ (j : Nat) (tk : String), renderLine j ⟨tk, s⟩ = toString j ++ ". [ ] " ++ tk) := by
  refine ⟨((todo_update_range env st i s).2 h0 h1).1,
    ((todo_update_range env st i s).2 h0 h1).2.1, ?_⟩
  intro hs1 hs2 hs3
  have hicon : statusIcon s = "[ ]" := by
    simp [statusIcon, hs1, hs2, hs3]
  refine ⟨hicon, ?_⟩
  intro j tk
  show toString j ++ ". " ++ statusIcon s ++ " " ++ tk = toString j ++ ". [ ] " ++ tk
  rw [hicon]
  apply String.ext
  simp only [String.data_append, List.append_assoc]
  have hmid : ". ".data ++ ("[ ]".data ++ (" ".data ++ tk.data)) =
      ". [ ] ".data ++ tk.data := by
    have h2 : (". ".data ++ ("[ ]".data ++ " ".data) : List Char) = ". [ ] ".data := by
      decide
    rw [← h2]
    simp [List.append_assoc]
  exact congrArg (fun l => (toString j).data ++ l) hmid

/-- Witness for C9: the non-enum status `blocked` is stored verbatim and
rendered with the pending marker. -/
theorem todo_update_any_status_witness :
    execute envFinal stTodo "todo_update" { index := 0, status := "blocked" } =
      (⟨⟨[], []⟩, [⟨"write tests", "blocked"⟩], []⟩, "Updated task 0 to blocked") ∧
    statusIcon "blocked" = "[ ]" ∧
    renderLine 0 ⟨"write tests", "blocked"⟩ = "0. [ ] write tests" := by
  refine ⟨?_, ?_, ?_⟩
  · exact (todo_update_any_status envFinal stTodo 0 "blocked" (by decide) (by decide)).1
  · exact ((todo_update_any_status envFinal stTodo 0 "blocked" (by decide)
      (by decide)).2.2 (by decide) (by decide) (by decide)).1
  · exact ((todo_update_any_status envFinal stTodo 0 "blocked" (by decide)
      (by decide)).2.2 (by decide) (by decide) (by decide)).2 0 "write tests"

/-! ## C2 — a delegated engine cannot recurse -/

/-- C2: the delegated tool set is exactly the four file/command tools — it
never contains `task` nor any todo tool — and executing `task` through the
delegated executor (the one `run_subagent` dispatches through) does not spawn
anything: it falls through `execute_basic` and yields the literal
`Unknown tool: task`, leaving the state untouched. -/
theorem delegated_no_recursion :
    subagent_tools.map (fun t => t.name) = ["bash", "read", "write", "edit"] ∧
    subagent_tools.all
      (fun t => !(["task", "todo_add", "todo_update", "todo_list"].contains t.name)) = true ∧
    (∀ (env : Env) (st : AgentState) (inp : ToolInput),
      execute_basic env st "task" inp = none ∧
      subExec env st "task" inp = (st, "Unknown tool: task")) := by
  refine ⟨by decide, by decide, ?_⟩
  intro env st inp
  exact ⟨rfl, rfl⟩

/-! ## C6 — a subagent starts from the task description alone -/

theorem subagentLoop_requests_head (env : Env) (sid : Nat) :
    ∀ fuel turn st msgs, 0 < fuel →
      (subagentLoop env sid fuel turn st msgs).requests.head? =
        some ⟨SUBAGENT_SYSTEM, subagent_tools, msgs⟩ := by
  intro fuel turn st msgs hf
  match fuel with
  | f + 1 =>
    by_cases hstop :
      (env.svc ⟨SUBAGENT_SYSTEM, subagent_tools, msgs⟩).stop_reason ≠ "tool_use"
    · simp [subagentLoop, hstop]
    · simp [subagentLoop, hstop]

theorem subagentLoop_requests_inv (env : Env) (sid : Nat) (m0 : Message) :
    ∀ fuel turn st msgs, msgs.head? = some m0 →
      ∀ req ∈ (subagentLoop env sid fuel turn st msgs).requests,
        req.system = SUBAGENT_SYSTEM ∧ req.tools = subagent_tools ∧
        req.messages.head? = some m0 := by
  intro fuel
  induction fuel with
  | zero =>
    intro turn st msgs _ req hreq
    simp [subagentLoop] at hreq
  | succ f ih =>
    intro turn st msgs h req hreq
    by_cases hstop :
      (env.svc ⟨SUBAGENT_SYSTEM, subagent_tools, msgs⟩).stop_reason ≠ "tool_use"
    · simp [subagentLoop, hstop] at hreq
      subst hreq
      exact ⟨rfl, rfl, h⟩
    · simp only [subagentLoop, if_neg hstop, List.mem_cons] at hreq
      rcases hreq with rfl | hreq
      · exact ⟨rfl, rfl, h⟩
      · refine ih _ _ _ ?_ req hreq
        match msgs, h with
        | m0 :: rest, rfl => rfl

/-- C6: every reasoning-service request a delegated run issues uses the
delegated system prompt and the delegated tool set, and its conversation
starts with the single user message holding the task description; in
particular the very first request carries exactly that one-message
conversation — no message of the parent's history. -/
theorem subagent_isolated_seed (env : Env) (st : AgentState) (desc : String) :
    (run_subagent env st desc).requests.head? =
      some ⟨SUBAGENT_SYSTEM, subagent_tools, [⟨"user", MContent.text desc⟩]⟩ ∧
    ∀ req ∈ (run_subagent env st desc).requests,
      req.system = SUBAGENT_SYSTEM ∧ req.tools = subagent_tools ∧
      req.messages.head? = some ⟨"user", MContent.text desc⟩ := by
  have hrs : run_subagent env st desc =
      subagentLoop env st.subagents.length max_turns 0
        { st with subagents := st.subagents ++ [⟨desc, "running", 0⟩] }
        [⟨"user", MContent.text desc⟩] := rfl
  rw [hrs]
  constructor
  · exact subagentLoop_requests_head env st.subagents.length max_turns 0 _ _ (by decide)
  · intro req hreq
    exact subagentLoop_requests_inv env st.subagents.length
      ⟨"user", MContent.text desc⟩ max_turns 0
      { st with subagents := st.subagents ++ [⟨desc, "running", 0⟩] }
      [⟨"user", MContent.text desc⟩] rfl req hreq

set_option maxRecDepth 100000 in
/-- Witness for C6: with a service that answers immediately, the delegated run
issues exactly one request, seeded with the lone task-description message. -/
theorem subagent_isolated_seed_witness :
    (run_subagent envFinal initState "d").requests =
      [⟨SUBAGENT_SYSTEM, subagent_tools, [⟨"user", MContent.text "d"⟩]⟩] ∧
    (⟨SUBAGENT_SYSTEM, subagent_tools, [⟨"user", MContent.text "d"⟩]⟩ :
        SvcRequest).messages.head? = some ⟨"user", MContent.text "d"⟩ := by
  refine ⟨by decide, ?_⟩
  exact ((subagent_isolated_seed envFinal initState "d").2 _ (by decide)).2.2

/-! ## C3 — the delegated turn budget -/

/-- The status of a subagent record, as `print_status`/the final summary read
it. -/
def statusOf (st : AgentState) (i : Nat) : Option String :=
  (st.subagents.get? i).map (·.status)

theorem editTool_preserves (st : AgentState) (inp : ToolInput) :
    (editTool st inp).1.subagents = st.subagents ∧
    (editTool st inp).1.todos = st.todos := by
  unfold editTool
  rcases hf : fileAt st.fs inp.path with _ | content
  · exact ⟨rfl, rfl⟩
  · by_cases h1 : ¬ pyContains inp.old_string content = true
    · simp [h1]
    · by_cases h2 : 1 < pyCount inp.old_string content
      · simp [h1, h2]
      · simp [h1, h2]

theorem subExec_preserves (env : Env) (st : AgentState) (n : String) (inp : ToolInput) :
    (subExec env st n inp).1.subagents = st.subagents ∧
    (subExec env st n inp).1.todos = st.todos := by
  unfold subExec execute_basic
  by_cases hb : n = "bash"
  · simp [hb, bashTool]
  · by_cases hr : n = "read"
    · simp [hb, hr, readTool]
    · by_cases hw : n = "write"
      · simp [hb, hr, hw, writeTool]
      · by_cases he : n = "edit"
        · simpa [hb, hr, hw, he] using editTool_preserves st inp
        · simp [hb, hr, hw, he]

theorem runToolUses_subExec_preserves (env : Env) :
    ∀ (bs : List Block) (st : AgentState),
      (runToolUses (subExec env) st bs).1.subagents = st.subagents ∧
      (runToolUses (subExec env) st bs).1.todos = st.todos := by
  intro bs
  induction bs with
  | nil => intro st; exact ⟨rfl, rfl⟩
  | cons b rest ih =>
    intro st
    cases b with
    | text s => simpa [runToolUses] using ih st
    | tool_use i n inp =>
      have h1 := subExec_preserves env st n inp
      have h2 := ih (subExec env st n inp).1
      simp only [runToolUses]
      exact ⟨h2.1.trans h1.1, h2.2.trans h1.2⟩

theorem statusOf_markStatus (st : AgentState) (sid : Nat) (s : String)
    (h : sid < st.subagents.length) :
    statusOf (markStatus st sid s) sid = some s := by
  have hr : st.subagents.get? sid = some (st.subagents.get ⟨sid, h⟩) :=
    List.get?_eq_get h
  show ((updateAt st.subagents sid fun r => { r with status := s }).get? sid).map
      (·.status) = some s
  rw [updateAt_get?_self, hr]
  rfl

theorem subagentLoop_calls_le (env : Env) (sid : Nat) :
    ∀ fuel turn st msgs,
      (subagentLoop env sid fuel turn st msgs).requests.length ≤ fuel := by
  intro fuel
  induction fuel with
  | zero => intro turn st msgs; simp [subagentLoop]
  | succ f ih =>
    intro turn st msgs
    by_cases hstop :
      (env.svc ⟨SUBAGENT_SYSTEM, subagent_tools, msgs⟩).stop_reason ≠ "tool_use"
    · simp [subagentLoop, hstop]
    · simp only [subagentLoop, if_neg hstop, List.length_cons]
      exact Nat.succ_le_succ (ih ..)

theorem subagentLoop_exhausts (env : Env) (sid : Nat) :
    ∀ fuel turn st msgs, sid < st.subagents.length →
      (∀ req ∈ (subagentLoop env sid fuel turn st msgs).requests,
        (env.svc req).stop_reason = "tool_use") →
      (subagentLoop env sid fuel turn st msgs).requests.length = fuel ∧
      (subagentLoop env sid fuel turn st msgs).result = timeoutMsg ∧
      statusOf (subagentLoop env sid fuel turn st msgs).state sid = some "timeout" := by
  intro fuel
  induction fuel with
  | zero =>
    intro turn st msgs hlt _
    exact ⟨rfl, rfl, statusOf_markStatus st sid "timeout" hlt⟩
  | succ f ih =>
    intro turn st msgs hlt hall
    by_cases hstop :
      (env.svc ⟨SUBAGENT_SYSTEM, subagent_tools, msgs⟩).stop_reason ≠ "tool_use"
    · exfalso
      apply hstop
      apply hall ⟨SUBAGENT_SYSTEM, subagent_tools, msgs⟩
      simp [subagentLoop, hstop]
    · have hall2 : ∀ req ∈ (subagentLoop env sid f (turn + 1)
          (runToolUses (subExec env) (setTurns st sid (turn + 1))
            (env.svc ⟨SUBAGENT_SYSTEM, subagent_tools, msgs⟩).content).1
          ((msgs ++ [⟨"assistant", MContent.blocks
              (env.svc ⟨SUBAGENT_SYSTEM, subagent_tools, msgs⟩).content⟩]) ++
            [⟨"user", MContent.results (runToolUses (subExec env)
              (setTurns st sid (turn + 1))
              (env.svc ⟨SUBAGENT_SYSTEM, subagent_tools, msgs⟩).content).2⟩])).requests,
          (env.svc req).stop_reason = "tool_use" := by
        intro req hreq
        apply hall req
        simp only [subagentLoop, if_neg hstop, List.mem_cons]
        exact Or.inr hreq
      have hlt2 : sid < (runToolUses (subExec env) (setTurns st sid (turn + 1))
          (env.svc ⟨SUBAGENT_SYSTEM, subagent_tools, msgs⟩).content).1.subagents.length := by
        rw [(runToolUses_subExec_preserves env _ _).1]
        simpa [setTurns, updateAt_length] using hlt
      have hrec := ih (turn + 1) _ _ hlt2 hall2
      refine ⟨?_, ?_, ?_⟩
      · simp only [subagentLoop, if_neg hstop, List.length_cons]
        rw [hrec.1]
      · simp only [subagentLoop, if_neg hstop]
        exact hrec.2.1
      · simp only [subagentLoop, if_neg hstop]
        exact hrec.2.2

theorem subagentLoop_outcome (env : Env) (sid : Nat) :
    ∀ fuel turn st msgs, sid < st.subagents.length →
      ((subagentLoop env sid fuel turn st msgs).result = timeoutMsg ∧
        statusOf (subagentLoop env sid fuel turn st msgs).state sid = some "timeout") ∨
      (statusOf (subagentLoop env sid fuel turn st msgs).state sid = some "done" ∧
        ∃ ms, (subagentLoop env sid fuel turn st msgs).requests.getLast? =
            some ⟨SUBAGENT_SYSTEM, subagent_tools, ms⟩ ∧
          (env.svc ⟨SUBAGENT_SYSTEM, subagent_tools, ms⟩).stop_reason ≠ "tool_use" ∧
          (subagentLoop env sid fuel turn st msgs).result =
            joinTexts (env.svc ⟨SUBAGENT_SYSTEM, subagent_tools, ms⟩).content) := by
  intro fuel
  induction fuel with
  | zero =>
    intro turn st msgs hlt
    exact Or.inl ⟨rfl, statusOf_markStatus st sid "timeout" hlt⟩
  | succ f ih =>
    intro turn st msgs hlt
    have hlt2 : sid < (runToolUses (subExec env) (setTurns st sid (turn + 1))
        (env.svc ⟨SUBAGENT_SYSTEM, subagent_tools, msgs⟩).content).1.subagents.length := by
      rw [(runToolUses_subExec_preserves env _ _).1]
      simpa [setTurns, updateAt_length] using hlt
    by_cases hstop :
      (env.svc ⟨SUBAGENT_SYSTEM, subagent_tools, msgs⟩).stop_reason ≠ "tool_use"
    · refine Or.inr ?_
      constructor
      · simp only [subagentLoop, if_pos hstop]
        exact statusOf_markStatus _ sid "done" hlt2
      · refine ⟨msgs, ?_, hstop, ?_⟩
        · simp [subagentLoop, hstop]
        · simp [subagentLoop, hstop]
    · have hrec := ih (turn + 1)
        (runToolUses (subExec env) (setTurns st sid (turn + 1))
          (env.svc ⟨SUBAGENT_SYSTEM, subagent_tools, msgs⟩).content).1
        ((msgs ++ [⟨"assistant", MContent.blocks
            (env.svc ⟨SUBAGENT_SYSTEM, subagent_tools, msgs⟩).content⟩]) ++
          [⟨"user", MContent.results (runToolUses (subExec env)
            (setTurns st sid (turn + 1))
            (env.svc ⟨SUBAGENT_SYSTEM, subagent_tools, msgs⟩).content).2⟩])
        hlt2
      rcases hrec with ⟨h1, h2⟩ | ⟨h1, ms, h2, h3, h4⟩
      · refine Or.inl ⟨?_, ?_⟩
        · simp only [subagentLoop, if_neg hstop]
          exact h1
        · simp only [subagentLoop, if_neg hstop]
          exact h2
      · refine Or.inr ⟨?_, ms, ?_, h3, ?_⟩
        · simp only [subagentLoop, if_neg hstop]
          exact h1
        · simp only [subagentLoop, if_neg hstop]
          rcases hreq : (subagentLoop env sid f (turn + 1)
              (runToolUses (subExec env) (setTurns st sid (turn + 1))
                (env.svc ⟨SUBAGENT_SYSTEM, subagent_tools, msgs⟩).content).1
              ((msgs ++ [⟨"assistant", MContent.blocks
                  (env.svc ⟨SUBAGENT_SYSTEM, subagent_tools, msgs⟩).content⟩]) ++
                [⟨"user", MContent.results (runToolUses (subExec env)
                  (setTurns st sid (turn + 1))
                  (env.svc ⟨SUBAGENT_SYSTEM, subagent_tools, msgs⟩).content).2⟩])).requests
            with _ | ⟨b, l⟩
          · rw [hreq] at h2
            simp at h2
          · rw [hreq] at h2
            rw [hreq, List.getLast?_cons_cons]
            exact h2
        · simp only [subagentLoop, if_neg hstop]
          exact h4

/-- C3: a delegated engine makes at most `max_turns = 20` reasoning-service
calls; when every turn taken requests tool use, the full budget is used, the
run returns the literal turn-budget-exhausted notice and its record is marked
`timeout`; and every run ends either that way or marked `done` with the final
response's concatenated text returned. -/
theorem delegated_turn_budget (env : Env) (st : AgentState) (desc : String) :
    (run_subagent env st desc).requests.length ≤ max_turns ∧
    max_turns = 20 ∧
    timeoutMsg = "Subagent reached max turns (20). Partial work may be completed." ∧
    ((∀ req ∈ (run_subagent env st desc).requests,
        (env.svc req).stop_reason = "tool_use") →
      (run_subagent env st desc).requests.length = max_turns ∧
      (run_subagent env st desc).result = timeoutMsg ∧
      statusOf (run_subagent env st desc).state st.subagents.length = some "timeout") ∧
    (((run_subagent env st desc).result = timeoutMsg ∧
        statusOf (run_subagent env st desc).state st.subagents.length = some "timeout") ∨
      (statusOf (run_subagent env st desc).state st.subagents.length = some "done" ∧
        ∃ ms, (run_subagent env st desc).requests.getLast? =
            some ⟨SUBAGENT_SYSTEM, subagent_tools, ms⟩ ∧
          (env.svc ⟨SUBAGENT_SYSTEM, subagent_tools, ms⟩).stop_reason ≠ "tool_use" ∧
          (run_subagent env st desc).result =
            joinTexts (env.svc ⟨SUBAGENT_SYSTEM, subagent_tools, ms⟩).content)) := by
  have hlt : st.subagents.length <
      ({ st with subagents := st.subagents ++ [⟨desc, "running", 0⟩] } :
        AgentState).subagents.length := by
    simp
  refine ⟨subagentLoop_calls_le env st.subagents.length max_turns 0 _ _, rfl, rfl,
    ?_, ?_⟩
  · intro hall
    exact subagentLoop_exhausts env st.subagents.length max_turns 0 _ _ hlt hall
  · exact subagentLoop_outcome env st.subagents.length max_turns 0 _ _ hlt

/-- Witness for C3: under a service that always requests tool use, the run
uses exactly 20 turns, returns the literal notice, and marks its record
`timeout`. -/
theorem delegated_turn_budget_witness :
    (run_subagent envLoop initState "d").requests.length = max_turns ∧
    (run_subagent envLoop initState "d").result =
      "Subagent reached max turns (20). Partial work may be completed." ∧
    statusOf (run_subagent envLoop initState "d").state 0 = some "timeout" := by
  have h := (delegated_turn_budget envLoop initState "d").2.2.2.1
    (fun req _ => rfl)
  exact ⟨h.1, h.2.1, h.2.2⟩

/-! ## C1 — exactly-once correlation of tool results

`correlatedTrace` is the Message invariant of the spec, read off a finished
conversation: whenever an assistant message is followed by anything, that
next message is a single user message whose tool-result correlation ids are
exactly the assistant message's invocation ids, in invocation order (list
equality of the id sequences gives set equality, exactly-one-per-invocation,
and order preservation all at once). -/

/-- The correlation ids of the tool-invocation blocks of a response, in
emission order. -/
def toolUseIds (bs : List Block) : List String :=
  bs.filterMap (fun b => match b with | .tool_use i _ _ => some i | _ => none)

/-- The correlation ids carried by a list of tool results, in order. -/
def resultIds (rs : List ToolResult) : List String := rs.map (·.tool_use_id)

/-- Every assistant message that has a successor is immediately followed by a
user message of tool results whose ids equal its invocation ids in order. -/
def correlatedTrace (ms : List Message) : Prop :=
  ∀ k bs, ms.get? k = some ⟨"assistant", MContent.blocks bs⟩ → k + 1 < ms.length →
    ∃ rs, ms.get? (k + 1) = some ⟨"user", MContent.results rs⟩ ∧
      resultIds rs = toolUseIds bs

/-- The conversation does not end in an (unanswered) assistant message. -/
def notAssistantLast (ms : List Message) : Prop :=
  ∀ bs, ms.get? (ms.length - 1) ≠ some ⟨"assistant", MContent.blocks bs⟩

theorem runToolUses_ids (exec : AgentState → String → ToolInput → AgentState × String) :
    ∀ (bs : List Block) (st : AgentState),
      resultIds (runToolUses exec st bs).2 = toolUseIds bs := by
  intro bs
  induction bs with
  | nil => intro st; rfl
  | cons b rest ih =>
    intro st
    cases b with
    | text s =>
      simpa [runToolUses, toolUseIds, List.filterMap_cons] using ih st
    | tool_use i n inp =>
      simp only [runToolUses, resultIds, List.map_cons, toolUseIds, List.filterMap_cons]
      exact congrArg (i :: ·) (ih _)

theorem seed_trace (s : String) :
    correlatedTrace [⟨"user", MContent.text s⟩] ∧
    notAssistantLast [⟨"user", MContent.text s⟩] := by
  constructor
  · intro k bs _ hlt
    exact absurd hlt (by simp)
  · intro bs h
    simp [List.get?] at h

theorem trace_extend (ms : List Message) (bs : List Block) (rs : List ToolResult)
    (h1 : correlatedTrace ms) (h2 : notAssistantLast ms)
    (hid : resultIds rs = toolUseIds bs) :
    correlatedTrace (ms ++ [⟨"assistant", MContent.blocks bs⟩] ++
      [⟨"user", MContent.results rs⟩]) ∧
    notAssistantLast (ms ++ [⟨"assistant", MContent.blocks bs⟩] ++
      [⟨"user", MContent.results rs⟩]) := by
  rw [List.append_assoc]
  constructor
  · intro k bs' hk hlt
    rw [List.length_append] at hlt
    simp only [List.length_cons, List.length_nil, List.length_append] at hlt
    rcases Nat.lt_trichotomy k ms.length with hk1 | hk1 | hk1
    · rw [List.get?_append hk1] at hk
      rcases Nat.lt_or_ge (k + 1) ms.length with hk2 | hk2
      · obtain ⟨rs', hrs', hid'⟩ := h1 k bs' hk hk2
        exact ⟨rs', by rw [List.get?_append hk2]; exact hrs', hid'⟩
      · exfalso
        have hke : k = ms.length - 1 := by omega
        rw [hke] at hk
        exact h2 bs' hk
    · subst hk1
      rw [List.get?_append_right (le_refl _), Nat.sub_self] at hk
      simp only [List.get?] at hk
      have hbs : bs = bs' := by
        have := Option.some.inj hk
        injection this with _ hc
        injection hc
      refine ⟨rs, ?_, hbs ▸ hid⟩
      rw [List.get?_append_right (by omega)]
      rw [show ms.length + 1 - ms.length = 1 from by omega]
      rfl
    · exfalso
      omega
  · intro bs' h
    rw [show ((ms ++ ([⟨"assistant", MContent.blocks bs⟩] ++
        [⟨"user", MContent.results rs⟩]) : List Message)).length - 1 = ms.length + 1
      from by simp only [List.length_append, List.length_cons, List.length_nil]; omega] at h
    rw [List.get?_append_right (by omega)] at h
    rw [show ms.length + 1 - ms.length = 1 from by omega] at h
    have huser : some (⟨"user", MContent.results rs⟩ : Message) =
        some ⟨"assistant", MContent.blocks bs'⟩ := h
    simp at huser

theorem trace_final (ms : List Message) (bs : List Block)
    (h1 : correlatedTrace ms) (h2 : notAssistantLast ms) :
    correlatedTrace (ms ++ [⟨"assistant", MContent.blocks bs⟩]) := by
  intro k bs' hk hlt
  rw [List.length_append] at hlt
  simp only [List.length_cons, List.length_nil] at hlt
  have hk1 : k < ms.length := by omega
  rw [List.get?_append hk1] at hk
  rcases Nat.lt_or_ge (k + 1) ms.length with hk2 | hk2
  · obtain ⟨rs', hrs', hid'⟩ := h1 k bs' hk hk2
    exact ⟨rs', by rw [List.get?_append hk2]; exact hrs', hid'⟩
  · exfalso
    have hke : k = ms.length - 1 := by omega
    rw [hke] at hk
    exact h2 bs' hk

theorem subagentLoop_trace (env : Env) (sid : Nat) :
    ∀ fuel turn st msgs, correlatedTrace msgs → notAssistantLast msgs →
      correlatedTrace (subagentLoop env sid fuel turn st msgs).messages := by
  intro fuel
  induction fuel with
  | zero => intro turn st msgs h1 _; exact h1
  | succ f ih =>
    intro turn st msgs h1 h2
    by_cases hstop :
      (env.svc ⟨SUBAGENT_SYSTEM, subagent_tools, msgs⟩).stop_reason ≠ "tool_use"
    · simp only [subagentLoop, if_pos hstop]
      exact trace_final msgs _ h1 h2
    · simp only [subagentLoop, if_neg hstop]
      have hext := trace_extend msgs
        (env.svc ⟨SUBAGENT_SYSTEM, subagent_tools, msgs⟩).content
        (runToolUses (subExec env) (setTurns st sid (turn + 1))
          (env.svc ⟨SUBAGENT_SYSTEM, subagent_tools, msgs⟩).content).2
        h1 h2 (runToolUses_ids _ _ _)
      exact ih (turn + 1) _ _ hext.1 hext.2

theorem agentLoop_trace (env : Env) :
    ∀ fuel st msgs, correlatedTrace msgs → notAssistantLast msgs →
      ∀ out, agentLoop env fuel st msgs = some out → correlatedTrace out.messages := by
  intro fuel
  induction fuel with
  | zero => intro st msgs _ _ out h; simp [agentLoop] at h
  | succ f ih =>
    intro st msgs h1 h2 out h
    by_cases hstop :
      (env.svc ⟨SYSTEM_PROMPT, main_tools, msgs⟩).stop_reason ≠ "tool_use"
    · simp only [agentLoop, if_pos hstop, Option.some.injEq] at h
      rw [← h]
      exact trace_final msgs _ h1 h2
    · simp only [agentLoop, if_neg hstop] at h
      have hext := trace_extend msgs
        (env.svc ⟨SYSTEM_PROMPT, main_tools, msgs⟩).content
        (runToolUses (execute env) st
          (env.svc ⟨SYSTEM_PROMPT, main_tools, msgs⟩).content).2
        h1 h2 (runToolUses_ids _ _ _)
      rcases hmap : agentLoop env f
          (runToolUses (execute env) st
            (env.svc ⟨SYSTEM_PROMPT, main_tools, msgs⟩).content).1
          ((msgs ++ [⟨"assistant", MContent.blocks
              (env.svc ⟨SYSTEM_PROMPT, main_tools, msgs⟩).content⟩]) ++
            [⟨"user", MContent.results (runToolUses (execute env) st
              (env.svc ⟨SYSTEM_PROMPT, main_tools, msgs⟩).content).2⟩])
        with _ | out2
      · rw [hmap] at h
        simp at h
      · rw [hmap] at h
        simp only [Option.map_some', Option.some.injEq] at h
        have hmessages : out.messages = out2.messages := by rw [← h]
        rw [hmessages]
        exact ih _ _ hext.1 hext.2 out2 hmap

/-- C1: in both the delegated loop and the primary loop, the finished
conversation satisfies the correlation invariant: whenever an assistant
message (a verbatim tool-use response) is followed by anything, its immediate
successor is the single user message whose tool-result ids are exactly the
invocation ids, one each, in invocation order. -/
theorem tool_result_correlation :
    (∀ (env : Env) (st : AgentState) (desc : String),
      correlatedTrace (run_subagent env st desc).messages) ∧
    (∀ (env : Env) (fuel : Nat) (task : String) (out : RunOut),
      agent env fuel task = some out → correlatedTrace out.messages) := by
  constructor
  · intro env st desc
    exact subagentLoop_trace env st.subagents.length max_turns 0 _ _
      (seed_trace desc).1 (seed_trace desc).2
  · intro env fuel task out h
    exact agentLoop_trace env fuel initState _
      (seed_trace task).1 (seed_trace task).2 out h

/-- The run the main loop produces when the very first response is final. -/
def outFinal : RunOut :=
  { state := initState
    result := "hi"
    messages := [⟨"user", MContent.text "t"⟩,
      ⟨"assistant", MContent.blocks [Block.text "hi"]⟩]
    requests := [⟨SYSTEM_PROMPT, main_tools, [⟨"user", MContent.text "t"⟩]⟩] }

set_option maxRecDepth 100000 in
/-- Witness for C1: a concrete one-turn main run and a concrete delegated run
both satisfy the correlation invariant. -/
theorem tool_result_correlation_witness :
    agent envFinal 1 "t" = some outFinal ∧
    correlatedTrace outFinal.messages ∧
    correlatedTrace (run_subagent envFinal initState "d").messages := by
  refine ⟨by decide, ?_, ?_⟩
  · exact tool_result_correlation.2 envFinal 1 "t" outFinal (by decide)
  · exact tool_result_correlation.1 envFinal initState "d"

/-! ## C10 — a final response still executes its tool calls, then discards
the results -/

/-- What the delegated loop produces on a final (non-tool-use) response: the
state reflects the execution of every invocation block of the response, the
record is marked done, the result is the concatenated text, and the
conversation ends with the assistant message — no tool-result user message is
appended. -/
def subFinalOut (env : Env) (sid turn : Nat) (st : AgentState)
    (msgs : List Message) : RunOut :=
  { state := markStatus (runToolUses (subExec env) (setTurns st sid (turn + 1))
      (env.svc ⟨SUBAGENT_SYSTEM, subagent_tools, msgs⟩).content).1 sid "done"
    result := joinTexts (env.svc ⟨SUBAGENT_SYSTEM, subagent_tools, msgs⟩).content
    messages := msgs ++ [⟨"assistant", MContent.blocks
      (env.svc ⟨SUBAGENT_SYSTEM, subagent_tools, msgs⟩).content⟩]
    requests := [⟨SUBAGENT_SYSTEM, subagent_tools, msgs⟩] }

/-- What the primary loop produces on a final response; same shape, with the
primary executor and no subagent record involved. -/
def mainFinalOut (env : Env) (st : AgentState) (msgs : List Message) : RunOut :=
  { state := (runToolUses (execute env) st
      (env.svc ⟨SYSTEM_PROMPT, main_tools, msgs⟩).content).1
    result := joinTexts (env.svc ⟨SYSTEM_PROMPT, main_tools, msgs⟩).content
    messages := msgs ++ [⟨"assistant", MContent.blocks
      (env.svc ⟨SYSTEM_PROMPT, main_tools, msgs⟩).content⟩]
    requests := [⟨SYSTEM_PROMPT, main_tools, msgs⟩] }

/-- C10: in both loops, when the stop condition is final the loop still runs
`runToolUses` over the whole response — every invocation block is executed and
its state effects kept — but the collected results are discarded: the loop
returns the concatenated text and the conversation ends with the assistant
message, with no tool-result user message after it. -/
theorem final_discards_results :
    (∀ (env : Env) (sid fuel turn : Nat) (st : AgentState) (msgs : List Message),
      (env.svc ⟨SUBAGENT_SYSTEM, subagent_tools, msgs⟩).stop_reason ≠ "tool_use" →
      subagentLoop env sid (fuel + 1) turn st msgs = subFinalOut env sid turn st msgs ∧
      (subagentLoop env sid (fuel + 1) turn st msgs).messages.getLast? =
        some ⟨"assistant", MContent.blocks
          (env.svc ⟨SUBAGENT_SYSTEM, subagent_tools, msgs⟩).content⟩) ∧
    (∀ (env : Env) (fuel : Nat) (st : AgentState) (msgs : List Message),
      (env.svc ⟨SYSTEM_PROMPT, main_tools, msgs⟩).stop_reason ≠ "tool_use" →
      agentLoop env (fuel + 1) st msgs = some (mainFinalOut env st msgs) ∧
      (mainFinalOut env st msgs).messages.getLast? =
        some ⟨"assistant", MContent.blocks
          (env.svc ⟨SYSTEM_PROMPT, main_tools, msgs⟩).content⟩) := by
  constructor
  · intro env sid fuel turn st msgs hstop
    constructor
    · simp only [subagentLoop, if_pos hstop]
      rfl
    · simp only [subagentLoop, if_pos hstop]
      exact List.getLast?_concat ..
  · intro env fuel st msgs hstop
    constructor
    · simp only [agentLoop, if_pos hstop]
      rfl
    · exact List.getLast?_concat ..

/-- A service whose (final) response still contains a tool invocation: it
writes a file, then stops. -/
def envMix : Env :=
  ⟨fun _ => ⟨"end_turn",
    [Block.tool_use "t1" "write" { path := "w", content := "z" }, Block.text "done"]⟩,
    fun _ => ⟨0, "", "", none⟩⟩

set_option maxRecDepth 100000 in
/-- Witness for C10: under `envMix` the delegated loop's final turn executes
the write (the file appears in the final state) yet returns only the text
`done`, and appends no tool-result message. -/
theorem final_discards_results_witness :
    subagentLoop envMix 0 1 0 initState [⟨"user", MContent.text "t"⟩] =
      subFinalOut envMix 0 0 initState [⟨"user", MContent.text "t"⟩] ∧
    agentLoop envMix 1 initState [⟨"user", MContent.text "t"⟩] =
      some (mainFinalOut envMix initState [⟨"user", MContent.text "t"⟩]) ∧
    (subFinalOut envMix 0 0 initState [⟨"user", MContent.text "t"⟩]).state.fs.files =
      [("w", "z")] ∧
    (subFinalOut envMix 0 0 initState [⟨"user", MContent.text "t"⟩]).result = "done" := by
  refine ⟨?_, ?_, by decide, by decide⟩
  · exact (final_discards_results.1 envMix 0 0 0 initState
      [⟨"user", MContent.text "t"⟩] (by decide)).1
  · exact (final_discards_results.2 envMix 0 initState
      [⟨"user", MContent.text "t"⟩] (by decide)).1
